import Mathlib

/-!
Verification of the gamification and audio-record business rules of the
reading-practice app (services/audio.ts, services/assignments.ts,
components/achievements/AchievementsScreen.tsx), shallowly embedded in Lean.

Conventions of the embedding:
* calendar days are `Nat` day indices;
* the backing store is modelled per authenticated user: a `GamState` holds
  the profile row of the user (if any), the per-day reading-streak ledger, the
  count of the audio records of the user, the achievement catalog and the list
  of earned achievement ids;
* JavaScript `Math.floor` on non-negative quotients is `Nat` division, and
  `Math.ceil (t / 60)` on a natural `t` is `(t + 59) / 60`.
-/

/-- A `profiles` row for one user.  The schema of the backing store is not
part of the sources; following the spec ("Profile: identity, points,
diamonds, streaks, level, last_activity"), a profile has a single identity,
so any query selecting the profile row of this user resolves to this record. -/
structure Profile where
  points : Nat
  diamonds : Nat
  current_streak : Nat
  longest_streak : Nat
  level : Nat
  last_activity : Option Nat
deriving Repr, DecidableEq

/-- A `reading_streaks` ledger row for (this user, one calendar day). -/
structure StreakEntry where
  streak_date : Nat
  recordings_count : Nat
  points_earned : Nat
deriving Repr, DecidableEq

/-- The `requirement_type` of an achievement catalog row. -/
inductive ReqType where
  | total_recordings
  | streak
  | points
  | perfect_week
deriving Repr, DecidableEq

/-- An `achievements` catalog row. -/
structure Achievement where
  id : Nat
  requirement_type : ReqType
  requirement_value : Nat
  points_reward : Nat
  diamonds_reward : Nat
deriving Repr, DecidableEq

/-- The slice of the backing store that the gamification service touches,
restricted to the authenticated user. `user_achievements` is the list of
achievement ids already earned (each row is a (user, achievement) join). -/
structure GamState where
  profile : Option Profile
  streaks : List StreakEntry
  total_recordings : Nat
  achievements : List Achievement
  user_achievements : List Nat
deriving Repr, DecidableEq

/-- The default profile inserted by `getStudentProgress` when none exists. -/
def defaultProfile : Profile :=
  { points := 0, diamonds := 0, current_streak := 0, longest_streak := 0,
    level := 1, last_activity := none }

/-- The stats object returned by `gamificationService.getStudentProgress`
(the fields the rules consume; `thisWeekRecordings` is presentation-only
and omitted). -/
structure Stats where
  points : Nat
  diamonds : Nat
  currentStreak : Nat
  longestStreak : Nat
  level : Nat
  totalRecordings : Nat
  nextLevelPoints : Nat
deriving Repr, DecidableEq

/-- Embedding of `getStudentProgress`, given the profile row it resolved: JavaScript
`profile.level || 1` maps `0` to `1` (0 is falsy), and
`nextLevelPoints = Math.max(0, currentLevel * 100 - points)`. -/
def mkStats (p : Profile) (totalRecordings : Nat) : Stats :=
  let currentLevel := if p.level = 0 then 1 else p.level
  let pointsToNext : Int := (currentLevel : Int) * 100 - (p.points : Int)
  { points := p.points, diamonds := p.diamonds,
    currentStreak := p.current_streak, longestStreak := p.longest_streak,
    level := currentLevel, totalRecordings := totalRecordings,
    nextLevelPoints := (max 0 pointsToNext).toNat }

/-- Embedding of `getStudentProgress` as a state transformer: when the profile row is
missing it inserts the default profile and reports the stats of that profile. -/
def getStudentProgressState (s : GamState) : Stats × GamState :=
  match s.profile with
  | some p => (mkStats p s.total_recordings, s)
  | none =>
      (mkStats defaultProfile s.total_recordings,
        { s with profile := some defaultProfile })

/-- Point computation in `validateAndSave` (AchievementsScreen):
`durationMinutes = Math.ceil(duration / 60)`, `basePoints = 10`,
`durationBonus = Math.min(durationMinutes * 2, 20)`. -/
def totalPointsFor (duration : Nat) : Nat :=
  let durationMinutes := (duration + 59) / 60
  let basePoints := 10
  let durationBonus := min (durationMinutes * 2) 20
  basePoints + durationBonus

/-- Lookup of the (user, day) ledger row in `reading_streaks`
(the query filtering `reading_streaks` by student and by day, with `.single()`). -/
def findDay (s : GamState) (d : Nat) : Option StreakEntry :=
  s.streaks.find? (fun e => e.streak_date = d)

/-- The same-day branch of `updateStreak`: bump `recordings_count` by 1 and
`points_earned` by 10 on the matching ledger row. -/
def bumpEntry (today : Nat) (e : StreakEntry) : StreakEntry :=
  if e.streak_date = today then
    { e with recordings_count := e.recordings_count + 1,
             points_earned := e.points_earned + 10 }
  else e

/-- Embedding of `gamificationService.updateStreak`, with `today` the current calendar
day.  If a ledger row for today exists, only its same-day counters are
updated; otherwise a row `(today, 1, 10)` is inserted, `current_streak` is
incremented, `longest_streak` is raised to the maximum and `last_activity`
is set to today (when the profile row resolves). -/
def updateStreak (today : Nat) (s : GamState) : GamState :=
  match findDay s today with
  | some _ => { s with streaks := s.streaks.map (bumpEntry today) }
  | none =>
      let s1 : GamState := { s with streaks := s.streaks ++ [{ streak_date := today, recordings_count := 1, points_earned := 10 }] }
      match s1.profile with
      | some p =>
          let newCurrentStreak := p.current_streak + 1
          let newLongestStreak := max p.longest_streak newCurrentStreak
          { s1 with profile := some { p with
              current_streak := newCurrentStreak,
              longest_streak := newLongestStreak,
              last_activity := some today } }
      | none => s1

/-- The per-achievement test in `checkAndAwardAchievements`:
`stat[requirement_type] >= requirement_value`, with `perfect_week`
unimplemented (the switch arm is empty, so `earned` stays false). -/
def achievementEarned (stats : Stats) (a : Achievement) : Bool :=
  match a.requirement_type with
  | .total_recordings => a.requirement_value ≤ stats.totalRecordings
  | .streak => a.requirement_value ≤ stats.currentStreak
  | .points => a.requirement_value ≤ stats.points
  | .perfect_week => false

/-- The reward step of `checkAndAwardAchievements`: re-read the profile row
and add `points_reward` / `diamonds_reward`.  The profile is resolved via
its single identity (see `Profile`); when no profile row exists the update
matches no row. -/
def applyReward (a : Achievement) (s : GamState) : GamState :=
  match s.profile with
  | some p => { s with profile := some { p with
      points := p.points + a.points_reward,
      diamonds := p.diamonds + a.diamonds_reward } }
  | none => s

/-- The guard around the reward update:
`if (achievement.points_reward > 0 || achievement.diamonds_reward > 0)`. -/
def rewardStep (a : Achievement) (s : GamState) : GamState :=
  if 0 < a.points_reward ∨ 0 < a.diamonds_reward then applyReward a s else s

/-- The `for (const achievement of availableAchievements)` loop of
`checkAndAwardAchievements`: `stats` is the snapshot taken once before the
loop; each earned achievement gets a `user_achievements` row, then (when a
reward is positive) the profile reward update; the earned achievements are
accumulated in order. -/
def checkLoop (stats : Stats) : List Achievement → GamState → List Achievement × GamState
  | [], s => ([], s)
  | a :: rest, s =>
      if achievementEarned stats a then
        let s1 : GamState :=
          { s with user_achievements := s.user_achievements ++ [a.id] }
        let s2 := rewardStep a s1
        let res := checkLoop stats rest s2
        (a :: res.1, res.2)
      else
        checkLoop stats rest s

/-- Embedding of `gamificationService.checkAndAwardAchievements`: take the stats
snapshot via `getStudentProgress`, query the achievements the user has not
earned yet (`not in (select achievement_id from user_achievements ...)`),
then run the evaluation loop; returns the list of newly earned
achievements. -/
def checkAndAwardAchievements (s : GamState) : List Achievement × GamState :=
  let res := getStudentProgressState s
  let available := res.2.achievements.filter
    (fun a => ¬ res.2.user_achievements.contains a.id)
  checkLoop res.1 available res.2

/-- Embedding of `gamificationService.awardPoints`: when no profile row resolves it
returns `{newPoints: points, newLevel: 1}` without touching the store;
otherwise `newPoints = points + delta`, `newLevel = floor(newPoints/100)+1`
are persisted and the achievement check runs afterwards. -/
def awardPoints (delta : Nat) (s : GamState) : (Nat × Nat) × GamState :=
  match s.profile with
  | none => ((delta, 1), s)
  | some p =>
      let newPoints := p.points + delta
      let newLevel := newPoints / 100 + 1
      let s1 := { s with profile := some { p with
          points := newPoints, level := newLevel } }
      ((newPoints, newLevel), (checkAndAwardAchievements s1).2)

/-- The `status` of a `reading_assignments` row. -/
inductive AssignmentStatus where
  | pending
  | completed
  | reviewed
deriving Repr, DecidableEq

/-- Position of a status in the forward lifecycle
pending → completed → reviewed. -/
def AssignmentStatus.rank : AssignmentStatus → Nat
  | .pending => 0
  | .completed => 1
  | .reviewed => 2

/-- A `reading_assignments` row (the fields the lifecycle touches). -/
structure ReadingAssignment where
  id : Nat
  status : AssignmentStatus
deriving Repr, DecidableEq

/-- An `audio_records` row (the fields the assignment lifecycle touches). -/
structure AudioRecordRow where
  id : Nat
  assignment_id : Option Nat
  parent_rating : Option Nat
  parent_feedback : Option String
  reading_quality : Option String
deriving Repr, DecidableEq

/-- The slice of the store that `assignmentService` touches. -/
structure AsgState where
  assignments : List ReadingAssignment
  audio_records : List AudioRecordRow
deriving Repr, DecidableEq

/-- Embedding of `assignmentService.completeAssignment`: set the status to completed on
the row with the given assignment id (no precondition on the current
status), then set `assignment_id` on the audio record with the given
recording id. -/
def completeAssignment (assignmentId recordingId : Nat) (s : AsgState) : AsgState :=
  { assignments := s.assignments.map (fun a =>
      if a.id = assignmentId then { a with status := .completed } else a),
    audio_records := s.audio_records.map (fun r =>
      if r.id = recordingId then { r with assignment_id := some assignmentId }
      else r) }

/-- Embedding of `assignmentService.reviewAssignment`: set the status to reviewed on the
row with the given assignment id (no precondition on the current status),
then look up the audio record linked via `assignment_id` and, when found,
attach rating / feedback / quality to it. -/
def reviewAssignment (assignmentId rating : Nat)
    (feedback quality : Option String) (s : AsgState) : AsgState :=
  let s1 : AsgState := { s with assignments := s.assignments.map (fun a =>
      if a.id = assignmentId then { a with status := .reviewed } else a) }
  match s1.audio_records.find? (fun r => r.assignment_id = some assignmentId) with
  | some r =>
      { s1 with audio_records := s1.audio_records.map (fun r2 =>
          if r2.id = r.id then { r2 with
            parent_rating := some rating,
            parent_feedback := feedback,
            reading_quality := quality } else r2) }
  | none => s1

/-- The status of one assignment in the store. -/
def statusOf (s : AsgState) (assignmentId : Nat) : Option AssignmentStatus :=
  (s.assignments.find? (fun a => a.id = assignmentId)).map ReadingAssignment.status

/-- Events emitted by the record-deletion flow, in execution order. -/
inductive DelEvent where
  | stopPlayback
  | storageRemove (path : String) (failed : Bool)
  | dbDelete (id : Nat) (failed : Bool)
deriving Repr, DecidableEq

/-- Playback/storage/database state relevant to deleting a recording. -/
structure AudioStore where
  playingRecordId : Option Nat
  storage : List String
  db_records : List Nat
deriving Repr, DecidableEq

/-- Result of the deletion flow: the emitted event trace, whether the
operation succeeded (the `Deleted` alert rather than `Delete Error`), and
the resulting state. -/
structure DeleteResult where
  events : List DelEvent
  ok : Bool
  state : AudioStore
deriving Repr, DecidableEq

/-- Embedding of `audioService.deleteAudioRecord`: remove the stored object (a failure
is only logged, and the flow continues), then delete the database row (a
failure is rethrown, failing the whole operation).  `storageFails` /
`dbFails` say whether the respective backing-store call fails. -/
def deleteAudioRecord (id : Nat) (filePath : String)
    (storageFails dbFails : Bool) (st : AudioStore) : DeleteResult :=
  let st1 := if storageFails then st
    else { st with storage := st.storage.erase filePath }
  let events := [DelEvent.storageRemove filePath storageFails,
                 DelEvent.dbDelete id dbFails]
  if dbFails then { events := events, ok := false, state := st1 }
  else { events := events, ok := true,
         state := { st1 with db_records := st1.db_records.erase id } }

/-- Embedding of `deleteRecord` in AchievementsScreen: if the record being deleted is the
one currently playing, stop (and unload) playback first, then call
`audioService.deleteAudioRecord`. -/
def deleteRecord (recId : Nat) (filePath : String)
    (storageFails dbFails : Bool) (st : AudioStore) : DeleteResult :=
  let stopped := st.playingRecordId = some recId
  let st1 := if stopped then { st with playingRecordId := none } else st
  let inner := deleteAudioRecord recId filePath storageFails dbFails st1
  { inner with events :=
      (if stopped then [DelEvent.stopPlayback] else []) ++ inner.events }

/-- What `validateAndSave` reports to the user. -/
inductive SaveMessage where
  | titleRequiredError
  | silentReturn
  | successAlert (points : Nat)
  | fallbackSavedAlert
deriving Repr, DecidableEq

/-- Which side effects `validateAndSave` performed. -/
structure SaveEffects where
  uploaded : Bool
  dbInserted : Bool
  gamificationUpdated : Bool
deriving Repr, DecidableEq

/-- Result of `validateAndSave`. -/
structure SaveResult where
  message : SaveMessage
  effects : SaveEffects
deriving Repr, DecidableEq

/-- The guard `!title.trim()`: a title trims to the empty string exactly
when every character is whitespace (in particular when it is empty). -/
def titleBlank (title : String) : Bool :=
  title.data.all Char.isWhitespace

/-- Embedding of `validateAndSave` in AchievementsScreen, on the happy store: an empty
(whitespace-only) title sets the title validation error and returns; a
missing recording URI returns silently; a zero-byte captured file throws
`Recording file is empty` before any upload, which the surrounding
catch-all turns into the generic `✅ Recording Saved!` alert; otherwise the
flow uploads, inserts the row and updates gamification, then shows the
success alert with `totalPointsFor duration` points. -/
def validateAndSave (title : String) (uri : Option String)
    (blobSize duration : Nat) : SaveResult :=
  if titleBlank title then
    { message := .titleRequiredError, effects := ⟨false, false, false⟩ }
  else
    match uri with
    | none => { message := .silentReturn, effects := ⟨false, false, false⟩ }
    | some _ =>
        if blobSize = 0 then
          { message := .fallbackSavedAlert, effects := ⟨false, false, false⟩ }
        else
          { message := .successAlert (totalPointsFor duration),
            effects := ⟨true, true, true⟩ }

/-- Claim `C2`: saving a recording of duration `t` seconds earns
`10 + min(ceil(t/60) * 2, 20)` points; in particular 0 s → 10 pts,
30 s → 12 pts, 60 s → 12 pts, 600 s → 30 pts. -/
theorem totalPointsFor_formula :
    (∀ t : Nat, (totalPointsFor t : Int) =
      10 + min (⌈(t : ℚ) / 60⌉ * 2) 20) ∧
    totalPointsFor 0 = 10 ∧ totalPointsFor 30 = 12 ∧
    totalPointsFor 60 = 12 ∧ totalPointsFor 600 = 30 := by
  refine ⟨fun t => ?_, by decide, by decide, by decide, by decide⟩
  have key : ∀ q : ℕ, q * 60 ≤ t + 59 → t ≤ q * 60 →
      ⌈(t : ℚ) / 60⌉ = (q : ℤ) := by
    intro q hq1 hq2
    have hq1' : (q : ℚ) * 60 ≤ (t : ℚ) + 59 := by exact_mod_cast hq1
    have hq2' : (t : ℚ) ≤ (q : ℚ) * 60 := by exact_mod_cast hq2
    rw [Int.ceil_eq_iff]
    constructor
    · rw [lt_div_iff₀ (by norm_num : (0:ℚ) < 60)]
      push_cast
      linarith
    · rw [div_le_iff₀ (by norm_num : (0:ℚ) < 60)]
      push_cast
      linarith
  have hceil := key ((t + 59) / 60) (by omega) (by omega)
  rw [hceil]
  unfold totalPointsFor
  push_cast
  omega

/-- Claim `C1`: when the profile row is found with points `P`, `awardPoints`
returns new points `P + d` and new level `⌊(P + d)/100⌋ + 1`, which is at
least 1; and the stats reported by `getStudentProgress` satisfy
`nextLevelPoints = max 0 (level * 100 - points)`. -/
theorem awardPoints_found_profile_spec (s : GamState) (p : Profile) (d : Nat)
    (hp : s.profile = some p) :
    (awardPoints d s).1 = (p.points + d, (p.points + d) / 100 + 1) ∧
    1 ≤ (p.points + d) / 100 + 1 ∧
    ∀ tr : Nat, (mkStats p tr).nextLevelPoints
      = (max 0 (((mkStats p tr).level : Int) * 100
          - ((mkStats p tr).points : Int))).toNat := by
  refine ⟨?_, Nat.le_add_left 1 _, fun tr => ?_⟩
  · simp [awardPoints, hp]
  · rfl

/-- Witness for `awardPoints_found_profile_spec` at a profile with 30
points and a delta of 250. -/
theorem awardPoints_found_profile_witness :
    (awardPoints 250
      ⟨some ⟨30, 2, 3, 5, 1, none⟩, [], 4, [], []⟩).1 = (280, 3) ∧
    (mkStats ⟨30, 2, 3, 5, 1, none⟩ 4).nextLevelPoints
      = (max 0 (((mkStats ⟨30, 2, 3, 5, 1, none⟩ 4).level : Int) * 100
          - ((mkStats ⟨30, 2, 3, 5, 1, none⟩ 4).points : Int))).toNat := by
  have h := awardPoints_found_profile_spec
    ⟨some ⟨30, 2, 3, 5, 1, none⟩, [], 4, [], []⟩ ⟨30, 2, 3, 5, 1, none⟩ 250 rfl
  exact ⟨by rw [h.1]; decide, h.2.2 4⟩

/-- Claim `C9` counterexample: with no resolvable profile and a delta of 100,
`awardPoints` returns level 1, while the level formula applied to the
default profile (`points = 0`) gives `⌊(0 + 100)/100⌋ + 1 = 2`. -/
theorem awardPoints_missing_profile_cex :
    (awardPoints 100 ⟨none, [], 0, [], []⟩).1 = (100, 1) ∧
    (defaultProfile.points + 100) / 100 + 1 = 2 ∧ (1 : Nat) ≠ 2 := by
  exact ⟨rfl, by decide, by decide⟩

/-- Claim `C9` (amended): when `awardPoints` cannot resolve a profile it does not
fail the action: it returns `newPoints = d` — the points total the formula
produces on the assumed default profile (`points = 0`) — together with the
default level 1 (the level formula is not re-applied to the default
profile), and it leaves the store untouched. -/
theorem awardPoints_missing_profile_spec (s : GamState) (d : Nat)
    (hp : s.profile = none) :
    awardPoints d s = ((0 + d, 1), s) := by
  simp [awardPoints, hp]

/-- Witness for `awardPoints_missing_profile_spec` with a delta of 7. -/
theorem awardPoints_missing_profile_witness :
    awardPoints 7 (⟨none, [], 0, [], []⟩ : GamState)
      = ((7, 1), (⟨none, [], 0, [], []⟩ : GamState)) := by
  simpa using awardPoints_missing_profile_spec ⟨none, [], 0, [], []⟩ 7 rfl

/-- Claim `C7`: deleting a record first stops playback when the deleted record is
the one playing, then removes the stored object best-effort — the trace
always continues to the database deletion even when the storage removal
fails, in which case the store is left untouched — and finally deletes the
database row; the whole operation fails exactly when the database deletion
fails. -/
theorem deleteRecord_spec (st : AudioStore) (recId : Nat) (filePath : String)
    (storageFails dbFails : Bool) :
    (deleteRecord recId filePath storageFails dbFails st).events
      = (if st.playingRecordId = some recId then [DelEvent.stopPlayback] else [])
        ++ [DelEvent.storageRemove filePath storageFails,
            DelEvent.dbDelete recId dbFails] ∧
    (deleteRecord recId filePath storageFails dbFails st).ok = !dbFails ∧
    (deleteRecord recId filePath storageFails dbFails st).state.playingRecordId
      = (if st.playingRecordId = some recId then none else st.playingRecordId) ∧
    (deleteRecord recId filePath storageFails dbFails st).state.storage
      = (if storageFails then st.storage else st.storage.erase filePath) ∧
    (deleteRecord recId filePath storageFails dbFails st).state.db_records
      = (if dbFails then st.db_records else st.db_records.erase recId) := by
  unfold deleteRecord deleteAudioRecord
  cases storageFails <;> cases dbFails <;>
    by_cases h : st.playingRecordId = some recId <;> simp [h]

/-- Claim `C10`: no `updateStreak` invocation, on any day and any prior state,
ever decreases `current_streak`: skipping calendar days never resets the
streak, because there is no streak-broken detection. -/
theorem updateStreak_never_decreases (s : GamState) (p : Profile) (d : Nat)
    (hp : s.profile = some p) :
    ∃ p', (updateStreak d s).profile = some p' ∧
      p.current_streak ≤ p'.current_streak := by
  cases hfd : findDay s d with
  | some e =>
      refine ⟨p, ?_, le_refl _⟩
      unfold updateStreak
      rw [hfd]
      simpa using hp
  | none =>
      refine ⟨{ p with current_streak := p.current_streak + 1, longest_streak := max p.longest_streak (p.current_streak + 1), last_activity := some d }, ?_, Nat.le_succ _⟩
      unfold updateStreak
      rw [hfd]
      simp [hp]

/-- Witness for `updateStreak_never_decreases`: a user with a 3-day streak
who last recorded on day 10 records again on day 20. -/
theorem updateStreak_never_decreases_witness :
    ∃ p', (updateStreak 20
        ⟨some ⟨50, 0, 3, 3, 1, some 10⟩,
          [⟨10, 1, 10⟩], 3, [], []⟩).profile = some p' ∧
      3 ≤ p'.current_streak := by
  exact updateStreak_never_decreases
    ⟨some ⟨50, 0, 3, 3, 1, some 10⟩, [⟨10, 1, 10⟩], 3, [], []⟩
    ⟨50, 0, 3, 3, 1, some 10⟩ 20 rfl

/-- Helper: `find?` skips a block in which nothing matches. -/
theorem find?_append_of_none {α : Type} {p : α → Bool} {l₁ : List α}
    (h : l₁.find? p = none) (l₂ : List α) :
    (l₁ ++ l₂).find? p = l₂.find? p := by
  induction l₁ with
  | nil => rfl
  | cons a l ih =>
      rw [List.find?_eq_none] at h
      have hl : l.find? p = none := by
        rw [List.find?_eq_none]
        exact fun x hx => h x (List.mem_cons_of_mem a hx)
      rw [List.cons_append, List.find?_cons_of_neg _ (h a (List.mem_cons_self a l)), ih hl]

/-- Helper: bumping the day-`d` ledger row is the identity on a ledger with
no day-`d` row. -/
theorem map_bumpEntry_of_none {d : Nat} {l : List StreakEntry}
    (h : l.find? (fun e => e.streak_date = d) = none) :
    l.map (bumpEntry d) = l := by
  induction l with
  | nil => rfl
  | cons a l ih =>
      rw [List.find?_eq_none] at h
      have ha : ¬ (a.streak_date = d) := by
        have := h a (List.mem_cons_self a l)
        simpa using this
      have hl : l.find? (fun e => e.streak_date = d) = none := by
        rw [List.find?_eq_none]
        exact fun x hx => h x (List.mem_cons_of_mem a hx)
      simp [bumpEntry, ha, ih hl]

/-- Helper: bumping the day-`d` ledger row does not touch the rows of any
other day. -/
theorem filter_ne_of_map_bumpEntry (d : Nat) (l : List StreakEntry) :
    (l.map (bumpEntry d)).filter (fun e => ¬ e.streak_date = d)
      = l.filter (fun e => ¬ e.streak_date = d) := by
  induction l with
  | nil => rfl
  | cons a l ih =>
      by_cases ha : a.streak_date = d
      · simpa [bumpEntry, ha] using ih
      · simpa [bumpEntry, ha] using ih

/-- Claim `C3`: the first `updateStreak` call of a day creates the (user, day)
ledger row with count 1, increments `current_streak` by exactly 1, sets
`longest_streak = max longest_streak (new current_streak)` and
`last_activity` to the day; a second same-day call updates only the same-day
`recordings_count` / `points_earned` (rows of other days are untouched) and
leaves the profile — hence `current_streak` — unchanged, so two same-day
calls increment `current_streak` by exactly 1 total; and no call ever
decreases `longest_streak`. -/
theorem updateStreak_per_day_spec (s : GamState) (p : Profile) (d : Nat)
    (hp : s.profile = some p) (hnew : findDay s d = none) :
    findDay (updateStreak d s) d = some ⟨d, 1, 10⟩ ∧
    (updateStreak d s).profile = some { p with current_streak := p.current_streak + 1, longest_streak := max p.longest_streak (p.current_streak + 1), last_activity := some d } ∧
    (updateStreak d (updateStreak d s)).profile = (updateStreak d s).profile ∧
    findDay (updateStreak d (updateStreak d s)) d = some ⟨d, 2, 20⟩ ∧
    ((updateStreak d (updateStreak d s)).streaks.filter (fun e => ¬ e.streak_date = d)
      = (updateStreak d s).streaks.filter (fun e => ¬ e.streak_date = d)) ∧
    (∀ (t : GamState) (q : Profile) (e : Nat), t.profile = some q →
      ∃ q', (updateStreak e t).profile = some q' ∧
        q.longest_streak ≤ q'.longest_streak) := by
  have hnl : s.streaks.find? (fun e => e.streak_date = d) = none := hnew
  have h1 : updateStreak d s = { s with streaks := s.streaks ++ [⟨d, 1, 10⟩], profile := some { p with current_streak := p.current_streak + 1, longest_streak := max p.longest_streak (p.current_streak + 1), last_activity := some d } } := by
    unfold updateStreak
    rw [hnew]
    simp [hp]
  have hsame : ∀ (t : GamState) (e : StreakEntry), findDay t d = some e →
      updateStreak d t = { t with streaks := t.streaks.map (bumpEntry d) } := by
    intro t e hfd
    unfold updateStreak
    rw [hfd]
  have hfd1 : findDay (updateStreak d s) d = some ⟨d, 1, 10⟩ := by
    rw [h1]
    show (s.streaks ++ [(⟨d, 1, 10⟩ : StreakEntry)]).find?
        (fun e => e.streak_date = d) = some ⟨d, 1, 10⟩
    rw [find?_append_of_none hnl]
    simp
  have h2 : updateStreak d (updateStreak d s)
      = { updateStreak d s with
          streaks := (updateStreak d s).streaks.map (bumpEntry d) } :=
    hsame _ _ hfd1
  have hstreaks2 : (updateStreak d (updateStreak d s)).streaks
      = s.streaks ++ [⟨d, 2, 20⟩] := by
    rw [h2]
    show ((updateStreak d s).streaks.map (bumpEntry d))
      = s.streaks ++ [(⟨d, 2, 20⟩ : StreakEntry)]
    rw [h1]
    show ((s.streaks ++ [(⟨d, 1, 10⟩ : StreakEntry)]).map (bumpEntry d))
      = s.streaks ++ [(⟨d, 2, 20⟩ : StreakEntry)]
    rw [List.map_append, map_bumpEntry_of_none hnl]
    simp [bumpEntry]
  refine ⟨hfd1, by rw [h1], by rw [h2], ?_, ?_, ?_⟩
  · show (updateStreak d (updateStreak d s)).streaks.find?
        (fun e => e.streak_date = d) = some ⟨d, 2, 20⟩
    rw [hstreaks2, find?_append_of_none hnl]
    simp
  · rw [h2]
    exact filter_ne_of_map_bumpEntry d _
  · intro t q e hq
    cases hfd : findDay t e with
    | some x =>
        refine ⟨q, ?_, le_refl _⟩
        unfold updateStreak
        rw [hfd]
        simpa using hq
    | none =>
        refine ⟨{ q with current_streak := q.current_streak + 1, longest_streak := max q.longest_streak (q.current_streak + 1), last_activity := some e }, ?_, le_max_left _ _⟩
        unfold updateStreak
        rw [hfd]
        simp [hq]

/-- Witness for `updateStreak_per_day_spec`: a fresh user records twice on
day 5. -/
theorem updateStreak_per_day_witness :
    findDay (updateStreak 5 ⟨some ⟨0, 0, 0, 0, 1, none⟩, [], 0, [], []⟩) 5
      = some ⟨5, 1, 10⟩ ∧
    (updateStreak 5 (updateStreak 5
        ⟨some ⟨0, 0, 0, 0, 1, none⟩, [], 0, [], []⟩)).profile
      = (updateStreak 5 ⟨some ⟨0, 0, 0, 0, 1, none⟩, [], 0, [], []⟩).profile ∧
    findDay (updateStreak 5 (updateStreak 5
        ⟨some ⟨0, 0, 0, 0, 1, none⟩, [], 0, [], []⟩)) 5 = some ⟨5, 2, 20⟩ := by
  have h := updateStreak_per_day_spec
    ⟨some ⟨0, 0, 0, 0, 1, none⟩, [], 0, [], []⟩ ⟨0, 0, 0, 0, 1, none⟩ 5 rfl rfl
  exact ⟨h.1, h.2.2.1, h.2.2.2.1⟩

/-- Helper: the reward update only touches the profile row. -/
theorem applyReward_fields (a : Achievement) (s : GamState) :
    (applyReward a s).user_achievements = s.user_achievements ∧
    (applyReward a s).achievements = s.achievements ∧
    (applyReward a s).total_recordings = s.total_recordings := by
  unfold applyReward
  cases s.profile <;> exact ⟨rfl, rfl, rfl⟩

/-- Helper: the guarded reward update only touches the profile row. -/
theorem rewardStep_fields (a : Achievement) (s : GamState) :
    (rewardStep a s).user_achievements = s.user_achievements ∧
    (rewardStep a s).achievements = s.achievements ∧
    (rewardStep a s).total_recordings = s.total_recordings := by
  unfold rewardStep
  split
  · exact applyReward_fields a s
  · exact ⟨rfl, rfl, rfl⟩

/-- Helper: the guarded reward update adds exactly the rewards carried by
the achievement to the profile (adding zero when the guard skips). -/
theorem rewardStep_profile (a : Achievement) (s : GamState) (p : Profile)
    (hp : s.profile = some p) :
    (rewardStep a s).profile = some { p with points := p.points + a.points_reward, diamonds := p.diamonds + a.diamonds_reward } := by
  unfold rewardStep applyReward
  split
  · rw [hp]
  · rename_i h
    have h1 : a.points_reward = 0 := by omega
    have h2 : a.diamonds_reward = 0 := by omega
    rw [hp, h1, h2]
    simp

/-- Helper: loop step equation for an earned achievement. -/
theorem checkLoop_cons_pos (stats : Stats) (a : Achievement)
    (rest : List Achievement) (s : GamState)
    (h : achievementEarned stats a = true) :
    checkLoop stats (a :: rest) s
      = (a :: (checkLoop stats rest (rewardStep a { s with user_achievements := s.user_achievements ++ [a.id] })).1,
        (checkLoop stats rest (rewardStep a { s with user_achievements := s.user_achievements ++ [a.id] })).2) := by
  simp [checkLoop, h]

/-- Helper: loop step equation for an achievement that is not earned. -/
theorem checkLoop_cons_neg (stats : Stats) (a : Achievement)
    (rest : List Achievement) (s : GamState)
    (h : ¬ achievementEarned stats a = true) :
    checkLoop stats (a :: rest) s = checkLoop stats rest s := by
  simp [checkLoop, h]

/-- Helper: the loop returns exactly the achievements of its input that the
stats snapshot satisfies. -/
theorem checkLoop_fst (stats : Stats) (l : List Achievement) (s : GamState) :
    (checkLoop stats l s).1 = l.filter (achievementEarned stats) := by
  induction l generalizing s with
  | nil => rfl
  | cons a rest ih =>
      by_cases h : achievementEarned stats a = true
      · rw [checkLoop_cons_pos stats a rest s h, List.filter_cons_of_pos h]
        exact congrArg (a :: ·) (ih _)
      · rw [checkLoop_cons_neg stats a rest s h, List.filter_cons_of_neg h]
        exact ih s

/-- Helper: the loop appends exactly the newly earned achievement ids to
`user_achievements`. -/
theorem checkLoop_user_achievements (stats : Stats) (l : List Achievement)
    (s : GamState) :
    (checkLoop stats l s).2.user_achievements
      = s.user_achievements ++ (checkLoop stats l s).1.map Achievement.id := by
  induction l generalizing s with
  | nil => simp [checkLoop]
  | cons a rest ih =>
      by_cases h : achievementEarned stats a = true
      · rw [checkLoop_cons_pos stats a rest s h]
        have hfld := (rewardStep_fields a { s with user_achievements := s.user_achievements ++ [a.id] }).1
        calc (checkLoop stats rest (rewardStep a { s with user_achievements := s.user_achievements ++ [a.id] })).2.user_achievements
            = (rewardStep a { s with user_achievements := s.user_achievements ++ [a.id] }).user_achievements
              ++ (checkLoop stats rest (rewardStep a { s with user_achievements := s.user_achievements ++ [a.id] })).1.map Achievement.id := ih _
          _ = s.user_achievements
              ++ (a :: (checkLoop stats rest (rewardStep a { s with user_achievements := s.user_achievements ++ [a.id] })).1).map Achievement.id := by
              rw [hfld]
              simp
      · rw [checkLoop_cons_neg stats a rest s h]
        exact ih s

/-- Helper: the loop never changes the catalog or the recordings count. -/
theorem checkLoop_const_fields (stats : Stats) (l : List Achievement)
    (s : GamState) :
    (checkLoop stats l s).2.achievements = s.achievements ∧
    (checkLoop stats l s).2.total_recordings = s.total_recordings := by
  induction l generalizing s with
  | nil => exact ⟨rfl, rfl⟩
  | cons a rest ih =>
      by_cases h : achievementEarned stats a = true
      · rw [checkLoop_cons_pos stats a rest s h]
        have hfld := rewardStep_fields a { s with user_achievements := s.user_achievements ++ [a.id] }
        exact ⟨((ih _).1).trans hfld.2.1, ((ih _).2).trans hfld.2.2⟩
      · rw [checkLoop_cons_neg stats a rest s h]
        exact ih s

/-- Helper: the loop keeps a resolvable profile resolvable and adds exactly
the rewards of the earned achievements to it. -/
theorem checkLoop_profile (stats : Stats) (l : List Achievement)
    (s : GamState) (p : Profile) (hp : s.profile = some p) :
    ∃ p', (checkLoop stats l s).2.profile = some p' ∧
      p'.points = p.points + ((checkLoop stats l s).1.map Achievement.points_reward).sum ∧
      p'.diamonds = p.diamonds + ((checkLoop stats l s).1.map Achievement.diamonds_reward).sum := by
  induction l generalizing s p with
  | nil => exact ⟨p, hp, by simp [checkLoop], by simp [checkLoop]⟩
  | cons a rest ih =>
      by_cases h : achievementEarned stats a = true
      · rw [checkLoop_cons_pos stats a rest s h]
        have hp1 : ({ s with user_achievements := s.user_achievements ++ [a.id] } : GamState).profile = some p := hp
        have hp2 := rewardStep_profile a _ p hp1
        obtain ⟨p', hp', hpts, hdia⟩ := ih _ _ hp2
        refine ⟨p', hp', ?_, ?_⟩
        · rw [hpts]
          simp [Nat.add_assoc]
        · rw [hdia]
          simp [Nat.add_assoc]
      · rw [checkLoop_cons_neg stats a rest s h]
        exact ih s p hp

/-- Helper: `getStudentProgress` on a resolvable profile reads it without
modifying the store. -/
theorem getStudentProgressState_of_some (s : GamState) (p : Profile)
    (hp : s.profile = some p) :
    getStudentProgressState s = (mkStats p s.total_recordings, s) := by
  unfold getStudentProgressState
  rw [hp]

/-- Helper: `getStudentProgress` touches at most the profile row, and
afterwards a profile row always exists. -/
theorem getStudentProgressState_fields (s : GamState) :
    (getStudentProgressState s).2.achievements = s.achievements ∧
    (getStudentProgressState s).2.user_achievements = s.user_achievements ∧
    (getStudentProgressState s).2.total_recordings = s.total_recordings ∧
    (getStudentProgressState s).2.profile.isSome = true := by
  unfold getStudentProgressState
  cases hsp : s.profile with
  | some p => exact ⟨rfl, rfl, rfl, by rw [hsp]; rfl⟩
  | none => exact ⟨rfl, rfl, rfl, rfl⟩

/-- Claim `C6`: in an evaluation pass over a resolvable profile, every newly
earned achievement gets its `user_achievements` row, and the pass adds the
`points_reward` of the newly earned achievements to the profile points and
their `diamonds_reward` to the profile diamonds. -/
theorem checkAndAwardAchievements_rewards_spec (s : GamState) (p : Profile)
    (hp : s.profile = some p) :
    ∃ p', (checkAndAwardAchievements s).2.profile = some p' ∧
      p'.points = p.points + ((checkAndAwardAchievements s).1.map Achievement.points_reward).sum ∧
      p'.diamonds = p.diamonds + ((checkAndAwardAchievements s).1.map Achievement.diamonds_reward).sum ∧
      ∀ a ∈ (checkAndAwardAchievements s).1,
        a.id ∈ (checkAndAwardAchievements s).2.user_achievements := by
  have hdef : checkAndAwardAchievements s
      = checkLoop (mkStats p s.total_recordings)
          (s.achievements.filter (fun a => ¬ s.user_achievements.contains a.id)) s := by
    unfold checkAndAwardAchievements
    rw [getStudentProgressState_of_some s p hp]
  rw [hdef]
  obtain ⟨p', hp', hpts, hdia⟩ := checkLoop_profile _ _ s p hp
  refine ⟨p', hp', hpts, hdia, fun a ha => ?_⟩
  rw [checkLoop_user_achievements]
  exact List.mem_append_right _ (List.mem_map_of_mem Achievement.id ha)

/-- Witness for `checkAndAwardAchievements_rewards_spec`: one unearned
points-achievement (threshold 5, rewards 7 points and 3 diamonds) over a
profile with 10 points and 1 diamond. -/
theorem checkAndAwardAchievements_rewards_witness :
    1 ∈ (checkAndAwardAchievements ⟨some ⟨10, 1, 0, 0, 1, none⟩, [], 0, [⟨1, .points, 5, 7, 3⟩], []⟩).2.user_achievements ∧
    (checkAndAwardAchievements ⟨some ⟨10, 1, 0, 0, 1, none⟩, [], 0, [⟨1, .points, 5, 7, 3⟩], []⟩).2.profile = some ⟨17, 4, 0, 0, 1, none⟩ := by
  obtain ⟨p', hp', hpts, hdia, hmem⟩ := checkAndAwardAchievements_rewards_spec
    ⟨some ⟨10, 1, 0, 0, 1, none⟩, [], 0, [⟨1, .points, 5, 7, 3⟩], []⟩
    ⟨10, 1, 0, 0, 1, none⟩ rfl
  exact ⟨hmem ⟨1, .points, 5, 7, 3⟩ (by decide), by decide⟩

/-- Helper: Boolean `contains` on an id list agrees with membership. -/
theorem contains_mem_iff (l : List Nat) (x : Nat) :
    l.contains x = true ↔ x ∈ l := List.elem_iff

/-- Claim `C4`: the evaluator `checkAndAwardAchievements` is idempotent — when the stats
snapshot after a pass equals the one before (no intervening stat change), a
second pass newly earns zero achievements; moreover a pass keeps the
(user, achievement) rows duplicate-free (at most one per pair) and never
removes an existing row. -/
theorem checkAndAwardAchievements_idempotent_spec (s : GamState)
    (hstats : (getStudentProgressState (checkAndAwardAchievements s).2).1
        = (getStudentProgressState s).1)
    (hcat : (s.achievements.map Achievement.id).Nodup)
    (hua : s.user_achievements.Nodup) :
    (checkAndAwardAchievements (checkAndAwardAchievements s).2).1 = [] ∧
    (checkAndAwardAchievements s).2.user_achievements.Nodup ∧
    ∀ x ∈ s.user_achievements, x ∈ (checkAndAwardAchievements s).2.user_achievements := by
  have hgf := getStudentProgressState_fields s
  have hdefgen : ∀ t : GamState, checkAndAwardAchievements t
      = checkLoop (getStudentProgressState t).1
          ((getStudentProgressState t).2.achievements.filter
            (fun a => ¬ (getStudentProgressState t).2.user_achievements.contains a.id))
          (getStudentProgressState t).2 := fun t => rfl
  have hdef1 := hdefgen s
  have hfst1 : (checkAndAwardAchievements s).1
      = ((getStudentProgressState s).2.achievements.filter
          (fun a => ¬ (getStudentProgressState s).2.user_achievements.contains a.id)).filter
          (achievementEarned (getStudentProgressState s).1) := by
    rw [hdef1, checkLoop_fst]
  have hua1 : (checkAndAwardAchievements s).2.user_achievements
      = s.user_achievements ++ (checkAndAwardAchievements s).1.map Achievement.id := by
    rw [hdef1, checkLoop_user_achievements, hgf.2.1]
  have hach1 : (checkAndAwardAchievements s).2.achievements = s.achievements := by
    rw [hdef1, (checkLoop_const_fields _ _ _).1, hgf.1]
  have hmem1 : ∀ a : Achievement, a ∈ (checkAndAwardAchievements s).1 →
      a ∈ s.achievements ∧ a.id ∉ s.user_achievements := by
    intro a ha
    rw [hfst1, List.mem_filter, List.mem_filter] at ha
    obtain ⟨⟨hain, hnotin⟩, hearned⟩ := ha
    rw [hgf.1] at hain
    rw [hgf.2.1] at hnotin
    simp only [decide_eq_true_eq] at hnotin
    exact ⟨hain, fun hx => hnotin ((contains_mem_iff _ _).mpr hx)⟩
  have hps0 : ∃ p0, (getStudentProgressState s).2.profile = some p0 := by
    cases h : (getStudentProgressState s).2.profile with
    | some p => exact ⟨p, rfl⟩
    | none =>
        have hs := hgf.2.2.2
        rw [h] at hs
        simp at hs
  obtain ⟨p0, hp0⟩ := hps0
  obtain ⟨p1, hp1, -, -⟩ := checkLoop_profile (getStudentProgressState s).1
    ((getStudentProgressState s).2.achievements.filter
      (fun a => ¬ (getStudentProgressState s).2.user_achievements.contains a.id))
    (getStudentProgressState s).2 p0 hp0
  rw [← hdef1] at hp1
  have hgsp1 := getStudentProgressState_of_some (checkAndAwardAchievements s).2 p1 hp1
  have hstats1 : mkStats p1 (checkAndAwardAchievements s).2.total_recordings
      = (getStudentProgressState s).1 := by
    have h := hstats
    rw [hgsp1] at h
    exact h
  have hdef2 : checkAndAwardAchievements (checkAndAwardAchievements s).2
      = checkLoop (getStudentProgressState s).1
          ((checkAndAwardAchievements s).2.achievements.filter
            (fun a => ¬ (checkAndAwardAchievements s).2.user_achievements.contains a.id))
          (checkAndAwardAchievements s).2 := by
    rw [hdefgen ((checkAndAwardAchievements s).2), hgsp1]
    dsimp only
    rw [hstats1]
  refine ⟨?_, ?_, ?_⟩
  · rw [hdef2, checkLoop_fst]
    apply List.filter_eq_nil_iff.mpr
    intro a ha hearned
    rw [List.mem_filter] at ha
    obtain ⟨hain, hnotin⟩ := ha
    rw [hach1] at hain
    simp only [decide_eq_true_eq] at hnotin
    have hnotmem : a.id ∉ (checkAndAwardAchievements s).2.user_achievements :=
      fun hx => hnotin ((contains_mem_iff _ _).mpr hx)
    have hnot_s : a.id ∉ s.user_achievements := by
      intro hx
      exact hnotmem (by rw [hua1]; exact List.mem_append_left _ hx)
    apply hnotmem
    rw [hua1]
    apply List.mem_append_right
    apply List.mem_map_of_mem Achievement.id
    rw [hfst1, List.mem_filter, List.mem_filter]
    refine ⟨⟨by rw [hgf.1]; exact hain, ?_⟩, hearned⟩
    simp only [decide_eq_true_eq]
    rw [hgf.2.1]
    exact fun hx => hnot_s ((contains_mem_iff _ _).mp hx)
  · rw [hua1, List.nodup_append]
    refine ⟨hua, ?_, ?_⟩
    · have h1 : ((getStudentProgressState s).2.achievements.filter
          (fun a => ¬ (getStudentProgressState s).2.user_achievements.contains a.id)).Sublist
          (getStudentProgressState s).2.achievements := List.filter_sublist _
      have h2 : (checkAndAwardAchievements s).1.Sublist
          ((getStudentProgressState s).2.achievements.filter
            (fun a => ¬ (getStudentProgressState s).2.user_achievements.contains a.id)) := by
        rw [hfst1]
        exact List.filter_sublist _
      have h3 := h2.trans h1
      rw [hgf.1] at h3
      exact List.Sublist.nodup (h3.map Achievement.id) hcat
    · intro x hx hx2
      obtain ⟨a, ha, hax⟩ := List.mem_map.mp hx2
      obtain ⟨-, hnotin⟩ := hmem1 a ha
      exact hnotin (hax ▸ hx)
  · intro x hx
    rw [hua1]
    exact List.mem_append_left _ hx

/-- Witness for `checkAndAwardAchievements_idempotent_spec`: a profile with
10 points and a catalog with one zero-reward points-achievement (threshold
5): the first pass earns it, the second earns nothing. -/
theorem checkAndAwardAchievements_idempotent_witness :
    (checkAndAwardAchievements (checkAndAwardAchievements
      ⟨some ⟨10, 0, 0, 0, 1, none⟩, [], 0, [⟨1, .points, 5, 0, 0⟩], []⟩).2).1 = [] ∧
    (checkAndAwardAchievements
      ⟨some ⟨10, 0, 0, 0, 1, none⟩, [], 0, [⟨1, .points, 5, 0, 0⟩], []⟩).2.user_achievements.Nodup := by
  have h := checkAndAwardAchievements_idempotent_spec
    ⟨some ⟨10, 0, 0, 0, 1, none⟩, [], 0, [⟨1, .points, 5, 0, 0⟩], []⟩
    (by decide) (by decide) (by decide)
  exact ⟨h.1, h.2.1⟩

/-- Helper: `find?` over a map that preserves the searched key. -/
theorem find?_map_of_pres {α β : Type} (f : α → β) (p : β → Bool)
    (q : α → Bool) (l : List α) (h : ∀ a, p (f a) = q a) :
    (l.map f).find? p = (l.find? q).map f := by
  induction l with
  | nil => rfl
  | cons a l ih =>
      cases hq : q a with
      | true =>
          rw [List.map_cons, List.find?_cons_of_pos _ (by rw [h a, hq]),
            List.find?_cons_of_pos _ hq]
          rfl
      | false =>
          rw [List.map_cons, List.find?_cons_of_neg _ (by simp [h a, hq]),
            List.find?_cons_of_neg _ (by simp [hq]), ih]

/-- Helper: the status-setting update used by the assignment service
changes exactly the status of the looked-up assignment. -/
theorem statusOf_set (l : List ReadingAssignment) (aid : Nat)
    (st : AssignmentStatus) (a0 : ReadingAssignment)
    (hfind : l.find? (fun a => a.id = aid) = some a0) :
    (l.map (fun a => if a.id = aid then { a with status := st } else a)).find?
      (fun a => a.id = aid) = some { a0 with status := st } := by
  have hpres : ∀ a : ReadingAssignment,
      ((fun a : ReadingAssignment => (a.id = aid : Bool))
        ((fun a => if a.id = aid then { a with status := st } else a) a))
        = ((a.id = aid : Bool)) := by
    intro a
    by_cases h : a.id = aid <;> simp [h]
  rw [find?_map_of_pres _ _ _ _ hpres, hfind]
  have ha0 : a0.id = aid := by
    have h := List.find?_some hfind
    simpa using h
  simp [ha0]

/-- Helper: `reviewAssignment` rewrites every assignment through the
status-setting update (its audio-record branch never touches
assignments). -/
theorem reviewAssignment_assignments (assignmentId rating : Nat)
    (feedback quality : Option String) (s : AsgState) :
    (reviewAssignment assignmentId rating feedback quality s).assignments
      = s.assignments.map (fun a =>
          if a.id = assignmentId then { a with status := .reviewed } else a) := by
  unfold reviewAssignment
  dsimp only
  split <;> rfl

/-- Helper: a record list in which no row carries `assignment_id = some
aid` has zero linked rows. -/
theorem countP_linked_zero (aid : Nat) (l : List AudioRecordRow)
    (hfresh : ∀ r ∈ l, r.assignment_id ≠ some aid) :
    l.countP (fun r => r.assignment_id = some aid) = 0 := by
  induction l with
  | nil => rfl
  | cons r rest ih =>
      rw [List.countP_cons]
      have hr : ¬ (r.assignment_id = some aid) :=
        hfresh r (List.mem_cons_self r rest)
      simp [hr, ih (fun x hx => hfresh x (List.mem_cons_of_mem r hx))]

/-- Helper: the linking update leaves rows with a different id unchanged. -/
theorem map_link_of_no_id (aid rid : Nat) (l : List AudioRecordRow)
    (h : ∀ r ∈ l, r.id ≠ rid) :
    l.map (fun r =>
      if r.id = rid then { r with assignment_id := some aid } else r) = l := by
  induction l with
  | nil => rfl
  | cons r rest ih =>
      have hr : ¬ (r.id = rid) := h r (List.mem_cons_self r rest)
      simp [hr, ih (fun x hx => h x (List.mem_cons_of_mem r hx))]

/-- Helper: the linking update links exactly one row — the one with the
given recording id. -/
theorem countP_linked_one (aid rid : Nat) (l : List AudioRecordRow)
    (hnod : (l.map AudioRecordRow.id).Nodup)
    (hmem : rid ∈ l.map AudioRecordRow.id)
    (hfresh : ∀ r ∈ l, r.assignment_id ≠ some aid) :
    (l.map (fun r =>
      if r.id = rid then { r with assignment_id := some aid } else r)).countP
      (fun r => r.assignment_id = some aid) = 1 := by
  induction l with
  | nil => simp at hmem
  | cons r rest ih =>
      rw [List.map_cons, List.nodup_cons] at hnod
      obtain ⟨hrnot, hrest⟩ := hnod
      rw [List.map_cons] at hmem
      by_cases hid : r.id = rid
      · have hrestid : ∀ x ∈ rest, x.id ≠ rid := by
          intro x hx hxid
          apply hrnot
          rw [hid, ← hxid]
          exact List.mem_map_of_mem AudioRecordRow.id hx
        rw [List.map_cons, if_pos hid, List.countP_cons]
        rw [map_link_of_no_id aid rid rest hrestid]
        rw [countP_linked_zero aid rest
          (fun x hx => hfresh x (List.mem_cons_of_mem r hx))]
        simp
      · have hmem2 : rid ∈ rest.map AudioRecordRow.id := by
          rcases List.mem_cons.mp hmem with h | h
          · exact absurd h.symm hid
          · exact h
        rw [List.map_cons, if_neg hid, List.countP_cons]
        have hr : ¬ (r.assignment_id = some aid) :=
          hfresh r (List.mem_cons_self r rest)
        rw [ih hrest hmem2 (fun x hx => hfresh x (List.mem_cons_of_mem r hx))]
        simp [hr]

/-- Claim `C5` counterexample: `completeAssignment` on an already-reviewed
assignment moves its status backward to `completed` — the update enforces
no precondition on the current status, so a backward transition exists. -/
theorem completeAssignment_backward_cex :
    statusOf ⟨[⟨1, .reviewed⟩], [⟨7, none, none, none, none⟩]⟩ 1
      = some .reviewed ∧
    statusOf (completeAssignment 1 7
      ⟨[⟨1, .reviewed⟩], [⟨7, none, none, none, none⟩]⟩) 1 = some .completed ∧
    AssignmentStatus.rank .completed < AssignmentStatus.rank .reviewed := by
  exact ⟨rfl, rfl, by decide⟩

/-- Claim `C5` (amended): the service functions set the target status
unconditionally — the code enforces no precondition on the current status,
so out-of-order calls can skip a state or move backward (see the
counterexample) — but under the intended order the lifecycle moves strictly
forward one step at a time: completing a pending assignment makes it
`completed` and links exactly one audio record (the given one) via
`assignment_id`, and reviewing it afterwards makes it `reviewed`. -/
theorem assignment_forward_lifecycle_spec (s : AsgState)
    (aid rid rating : Nat) (feedback quality : Option String)
    (hasg : statusOf s aid = some .pending)
    (hnod : (s.audio_records.map AudioRecordRow.id).Nodup)
    (hmem : rid ∈ s.audio_records.map AudioRecordRow.id)
    (hfresh : ∀ r ∈ s.audio_records, r.assignment_id ≠ some aid) :
    statusOf (completeAssignment aid rid s) aid = some .completed ∧
    (completeAssignment aid rid s).audio_records.countP
      (fun r => r.assignment_id = some aid) = 1 ∧
    statusOf (reviewAssignment aid rating feedback quality
      (completeAssignment aid rid s)) aid = some .reviewed ∧
    AssignmentStatus.rank .pending < AssignmentStatus.rank .completed ∧
    AssignmentStatus.rank .completed < AssignmentStatus.rank .reviewed ∧
    AssignmentStatus.rank .completed = AssignmentStatus.rank .pending + 1 ∧
    AssignmentStatus.rank .reviewed = AssignmentStatus.rank .completed + 1 := by
  have h0 : ∃ a0, s.assignments.find? (fun a => a.id = aid) = some a0
      ∧ a0.status = .pending := by
    unfold statusOf at hasg
    cases hf : s.assignments.find? (fun a => a.id = aid) with
    | none => rw [hf] at hasg; simp at hasg
    | some a0 =>
        rw [hf] at hasg
        simp at hasg
        exact ⟨a0, rfl, hasg⟩
  obtain ⟨a0, hfind, hst⟩ := h0
  have hc1 : statusOf (completeAssignment aid rid s) aid = some .completed := by
    unfold statusOf completeAssignment
    rw [statusOf_set s.assignments aid .completed a0 hfind]
    rfl
  have hc2 : (completeAssignment aid rid s).audio_records.countP
      (fun r => r.assignment_id = some aid) = 1 := by
    unfold completeAssignment
    exact countP_linked_one aid rid s.audio_records hnod hmem hfresh
  have hfind1 : (completeAssignment aid rid s).assignments.find?
      (fun a => a.id = aid) = some { a0 with status := .completed } := by
    unfold completeAssignment
    exact statusOf_set s.assignments aid .completed a0 hfind
  have hc3 : statusOf (reviewAssignment aid rating feedback quality
      (completeAssignment aid rid s)) aid = some .reviewed := by
    unfold statusOf
    rw [reviewAssignment_assignments]
    rw [statusOf_set _ aid .reviewed _ hfind1]
    rfl
  exact ⟨hc1, hc2, hc3, by decide, by decide, by decide, by decide⟩

/-- Witness for `assignment_forward_lifecycle_spec`: one pending assignment
(id 1), one unlinked recording (id 7), reviewed with rating 5. -/
theorem assignment_forward_lifecycle_witness :
    statusOf (completeAssignment 1 7
      ⟨[⟨1, .pending⟩], [⟨7, none, none, none, none⟩]⟩) 1 = some .completed ∧
    (completeAssignment 1 7
      ⟨[⟨1, .pending⟩], [⟨7, none, none, none, none⟩]⟩).audio_records.countP
      (fun r => r.assignment_id = some 1) = 1 ∧
    statusOf (reviewAssignment 1 5 (some "good") (some "excellent")
      (completeAssignment 1 7
        ⟨[⟨1, .pending⟩], [⟨7, none, none, none, none⟩]⟩)) 1
      = some .reviewed := by
  have h := assignment_forward_lifecycle_spec
    ⟨[⟨1, .pending⟩], [⟨7, none, none, none, none⟩]⟩ 1 7 5
    (some "good") (some "excellent") rfl (by decide) (by decide) (by decide)
  exact ⟨h.1, h.2.1, h.2.2.1⟩

/-- Claim `C8` counterexample: a save attempt with a non-empty title and a
zero-byte captured file aborts before any side effect, but it is reported
through the catch-all `Recording Saved!` alert, not as a validation error. -/
theorem validateAndSave_zero_byte_cex :
    validateAndSave "Chapter 1" (some "recording-1.m4a") 0 30
      = ⟨.fallbackSavedAlert, ⟨false, false, false⟩⟩ ∧
    SaveMessage.fallbackSavedAlert ≠ SaveMessage.titleRequiredError := by
  exact ⟨by decide, by decide⟩

/-- Claim `C8` (amended): a blank (empty or whitespace-only) title is rejected as
the title-required validation error before any side effect; a zero-byte
captured file likewise aborts before any side effect — no upload, no
database insert, no gamification update — but the thrown validation error
is swallowed by the surrounding catch-all, which reports the generic saved
alert instead of a validation error; with a non-blank title, a present URI
and a non-empty file the flow performs all three side effects and reports
the success alert with the duration-based points. -/
theorem validateAndSave_spec (title : String) (uri : Option String)
    (blobSize duration : Nat) :
    (titleBlank title = true →
      validateAndSave title uri blobSize duration
        = ⟨.titleRequiredError, ⟨false, false, false⟩⟩) ∧
    (titleBlank title = false → ∀ u : String, uri = some u → blobSize = 0 →
      validateAndSave title uri blobSize duration
        = ⟨.fallbackSavedAlert, ⟨false, false, false⟩⟩) ∧
    (titleBlank title = false → ∀ u : String, uri = some u → blobSize ≠ 0 →
      validateAndSave title uri blobSize duration
        = ⟨.successAlert (totalPointsFor duration), ⟨true, true, true⟩⟩) := by
  refine ⟨fun h => ?_, fun h u hu hz => ?_, fun h u hu hz => ?_⟩
  · simp [validateAndSave, h]
  · subst hu
    simp [validateAndSave, h, hz]
  · subst hu
    simp [validateAndSave, h, hz]

/-- Witness for `validateAndSave_spec` at its three branches: empty title;
zero-byte file; and a 90-second recording titled `Chapter 1`. -/
theorem validateAndSave_spec_witness :
    validateAndSave "" none 0 0 = ⟨.titleRequiredError, ⟨false, false, false⟩⟩ ∧
    validateAndSave "Chapter 1" (some "recording-2.m4a") 0 0
      = ⟨.fallbackSavedAlert, ⟨false, false, false⟩⟩ ∧
    validateAndSave "Chapter 1" (some "recording-2.m4a") 52000 90
      = ⟨.successAlert 14, ⟨true, true, true⟩⟩ := by
  refine ⟨(validateAndSave_spec "" none 0 0).1 (by decide),
    (validateAndSave_spec "Chapter 1" (some "recording-2.m4a") 0 0).2.1
      (by decide) "recording-2.m4a" rfl rfl, ?_⟩
  have h := (validateAndSave_spec "Chapter 1" (some "recording-2.m4a") 52000 90).2.2
    (by decide) "recording-2.m4a" rfl (by decide)
  rw [h]
  decide
